import Mathlib

/-!
Shallow embedding of the `airdrop-contract` CosmWasm/Secret-Network contract
(`src/contract.rs`, `src/state.rs`, `src/msg.rs`) and proofs about its
specification claims.

Modelling conventions:
* `Uint128` values are `Nat`s; every checked operation of `cosmwasm_std::Uint128`
  (`+`, `-`, `multiply_ratio`) is modelled by an explicit function that returns
  `TxResult.panic` exactly where the Rust library panics (overflow, underflow,
  zero denominator).  `StdError` results of the contract are `TxResult.err`.
  A transaction that ends in `err` or `panic` commits nothing: the model makes
  this literal by only producing a successor state inside the `ok` payload.
* Byte strings are `List Nat` (each element a byte value `< 256`); text is the
  Lean `String` type, and `strBytes` maps a string to its bytes assuming ASCII
  content (addresses, decimal digits and hex digits, which is all the contract
  ever hashes or compares).
* The host storage API (`Item`, `Keymap`) is modelled by an `Option` field for
  each singleton and an association list for the claims `Keymap`; a failing
  `load` of a missing item is the corresponding `StdError` result.
* `deps.api.addr_validate` is modelled as the identity on strings: bech32
  validation is host-side and no claim depends on it.
-/

namespace Airdrop

/-- Result of one contract call: `ok` carries the committed value (for an
execute entry point this is the successor state and the response), `err` is a
returned `StdError`, and `panic` is a Rust panic (the VM traps and the
transaction aborts).  In both failure cases no state is written. -/
inductive TxResult (α : Type) where
  | ok (value : α)
  | err (msg : String)
  | panic (msg : String)
  deriving DecidableEq, Repr

/-- Whether a call ended as a returned `StdError` (as opposed to success or a
panic). -/
def TxResult.isErr {α : Type} : TxResult α → Bool
  | .err _ => true
  | _ => false

/-- largest value representable by `Uint128`. -/
def u128Max : Nat := 2 ^ 128 - 1

/-- Checked `Uint128` addition: Rust `a + b` on `Uint128` panics on overflow. -/
def addU128 (a b : Nat) : TxResult Nat :=
  if a + b ≤ u128Max then .ok (a + b) else .panic "attempt to add with overflow"

/-- Checked `Uint128` subtraction: Rust `a - b` on `Uint128` panics on
underflow. -/
def subU128 (a b : Nat) : TxResult Nat :=
  if b ≤ a then .ok (a - b) else .panic "attempt to subtract with overflow"

/-- `Uint128::multiply_ratio(num, den)` computes `self * num / den` on a
widened 256-bit intermediate; it panics when the denominator is zero and when
the quotient does not fit back into 128 bits. -/
def mulDiv128 (a num den : Nat) : TxResult Nat :=
  if den = 0 then .panic "Denominator must not be zero"
  else if a * num / den ≤ u128Max then .ok (a * num / den)
  else .panic "Multiplication overflow"

/-! ### Bytes, hex strings and lexicographic comparison -/

/-- Comparison of two `Nat`s as an `Ordering`. -/
def natCmp (a b : Nat) : Ordering :=
  if a < b then .lt else if b < a then .gt else .eq

/-- Lexicographic comparison of byte sequences, as Rust derives `Ord` for
`Vec<u8>` (prefix is smaller). -/
def lexCmp : List Nat → List Nat → Ordering
  | [], [] => .eq
  | [], _ :: _ => .lt
  | _ :: _, [] => .gt
  | a :: as, b :: bs =>
    match natCmp a b with
    | .eq => lexCmp as bs
    | o => o

/-- Rust `computed_hash <= proof_bytes` on `Vec<u8>`. -/
def lexLe (a b : List Nat) : Bool :=
  match lexCmp a b with
  | .gt => false
  | _ => true

/-- Strict lexicographic order on byte sequences ("lexicographically
smaller"). -/
def lexLt (a b : List Nat) : Bool :=
  match lexCmp a b with
  | .lt => true
  | _ => false

/-- Value of one hex digit character; `hex::decode` accepts both cases. -/
def hexVal (c : Char) : Option Nat :=
  if '0' ≤ c ∧ c ≤ '9' then some (c.toNat - 48)
  else if 'a' ≤ c ∧ c ≤ 'f' then some (c.toNat - 87)
  else if 'A' ≤ c ∧ c ≤ 'F' then some (c.toNat - 55)
  else none

/-- Lowercase hex digit for a value `< 16`, as `hex::encode` emits. -/
def hexDigit (n : Nat) : Char :=
  if n < 10 then Char.ofNat (48 + n) else Char.ofNat (87 + n)

/-- `hex::encode`: two lowercase digits per byte. -/
def hexEncodeChars (bs : List Nat) : List Char :=
  (bs.map (fun b => [hexDigit (b / 16), hexDigit (b % 16)])).flatten

/-- `hex::encode` producing a string. -/
def hexEncodeStr (bs : List Nat) : String :=
  ⟨hexEncodeChars bs⟩

/-- `hex::decode` on a character list: fails on odd length or any non-hex
character. -/
def hexDecodeChars : List Char → Option (List Nat)
  | [] => some []
  | [_] => none
  | c1 :: c2 :: rest =>
    match hexVal c1, hexVal c2, hexDecodeChars rest with
    | some h, some l, some bs => some ((16 * h + l) :: bs)
    | _, _, _ => none

/-- Rust `hex_str.strip_prefix("0x").unwrap_or(hex_str)`. -/
def strip0x (s : String) : List Char :=
  match s.data with
  | '0' :: 'x' :: rest => rest
  | l => l

/-- `hex_to_bytes` from `contract.rs`: strip one optional `0x` prefix, then
decode; a malformed string is a `StdError`. -/
def hex_to_bytes (s : String) : TxResult (List Nat) :=
  match hexDecodeChars (strip0x s) with
  | some bs => .ok bs
  | none => .err "Invalid hex"

/-- Bytes of an ASCII string (`str::as_bytes` restricted to ASCII content). -/
def strBytes (s : String) : List Nat :=
  s.data.map Char.toNat

/-! ### SHA-256 over byte lists, all words reduced mod `2 ^ 32` -/

/-- Truncate to a 32-bit word. -/
def u32 (n : Nat) : Nat := n % 4294967296

/-- Rotate a 32-bit word right by `k` bits. -/
def rotr (k x : Nat) : Nat := u32 ((x >>> k) ||| (x <<< (32 - k)))

/-- The 64 SHA-256 round constants (decimal rendering of the standard
words). -/
def K256 : List Nat :=
  [1116352408, 1899447441, 3049323471, 3921009573, 961987163, 1508970993,
   2453635748, 2870763221, 3624381080, 310598401, 607225278, 1426881987,
   1925078388, 2162078206, 2614888103, 3248222580, 3835390401, 4022224774,
   264347078, 604807628, 770255983, 1249150122, 1555081692, 1996064986,
   2554220882, 2821834349, 2952996808, 3210313671, 3336571891, 3584528711,
   113926993, 338241895, 666307205, 773529912, 1294757372, 1396182291,
   1695183700, 1986661051, 2177026350, 2456956037, 2730485921, 2820302411,
   3259730800, 3345764771, 3516065817, 3600352804, 4094571909, 275423344,
   430227734, 506948616, 659060556, 883997877, 958139571, 1322822218,
   1537002063, 1747873779, 1955562222, 2024104815, 2227730452, 2361852424,
   2428436474, 2756734187, 3204031479, 3329325298]

/-- The SHA-256 initial hash words (decimal rendering). -/
def H256 : List Nat :=
  [1779033703, 3144134277, 1013904242, 2773480762, 1359893119, 2600822924,
   528734635, 1541459225]

/-- Pack big-endian groups of four bytes into 32-bit words. -/
def bytesToWords : List Nat → List Nat
  | b0 :: b1 :: b2 :: b3 :: rest =>
    (b0 * 16777216 + b1 * 65536 + b2 * 256 + b3) :: bytesToWords rest
  | _ => []

/-- Word `i` of a schedule list (out of range reads 0, never exercised). -/
def wget (w : List Nat) (i : Nat) : Nat := w.getD i 0

/-- Append the next extended message-schedule word. -/
def scheduleStep (w : List Nat) : List Nat :=
  let i := w.length
  let x := wget w (i - 15)
  let y := wget w (i - 2)
  let s0 := (rotr 7 x) ^^^ (rotr 18 x) ^^^ (x >>> 3)
  let s1 := (rotr 17 y) ^^^ (rotr 19 y) ^^^ (y >>> 10)
  w ++ [u32 (wget w (i - 16) + s0 + wget w (i - 7) + s1)]

/-- Iterate the schedule extension. -/
def extendSchedule : Nat → List Nat → List Nat
  | 0, w => w
  | n + 1, w => extendSchedule n (scheduleStep w)

/-- The 64-word message schedule of one 64-byte block. -/
def schedule (block : List Nat) : List Nat :=
  extendSchedule 48 (bytesToWords block)

/-- One SHA-256 compression round on the state `[a,b,c,d,e,f,g,h]`. -/
def compressStep (st : List Nat) (kw : Nat × Nat) : List Nat :=
  match st with
  | [a, b, c, d, e, f, g, h] =>
    let s1 := (rotr 6 e) ^^^ (rotr 11 e) ^^^ (rotr 25 e)
    let ch := (e &&& f) ^^^ ((e ^^^ 0xffffffff) &&& g)
    let t1 := u32 (h + s1 + ch + kw.1 + kw.2)
    let s0 := (rotr 2 a) ^^^ (rotr 13 a) ^^^ (rotr 22 a)
    let mj := (a &&& b) ^^^ (a &&& c) ^^^ (b &&& c)
    let t2 := u32 (s0 + mj)
    [u32 (t1 + t2), a, b, c, u32 (d + t1), e, f, g]
  | other => other

/-- Compress one 64-byte block into the running hash words. -/
def compress (hs : List Nat) (block : List Nat) : List Nat :=
  let fin := ((K256.zip (schedule block)).foldl compressStep hs)
  List.zipWith (fun x y => u32 (x + y)) hs fin

/-- SHA-256 padding: `0x80`, zeros to 56 mod 64, 8-byte big-endian bit
length. -/
def padMessage (msg : List Nat) : List Nat :=
  let L := msg.length
  let k := (119 - L % 64) % 64
  msg ++ [128] ++ List.replicate k 0 ++
    (List.range 8).map (fun i => ((8 * L) >>> (8 * (7 - i))) % 256)

/-- Split a byte list into 64-byte blocks (fuel-indexed to stay structural). -/
def chunks64 : Nat → List Nat → List (List Nat)
  | 0, _ => []
  | _ + 1, [] => []
  | n + 1, l => l.take 64 :: chunks64 n (l.drop 64)

/-- SHA-256 of a byte list, producing the 32 digest bytes. -/
def sha256 (msg : List Nat) : List Nat :=
  let padded := padMessage msg
  let hs := (chunks64 padded.length padded).foldl compress H256
  (hs.map (fun w => [(w >>> 24) % 256, (w >>> 16) % 256, (w >>> 8) % 256, w % 256])).flatten

/-! ### Merkle verification (`contract.rs` lines 13-53) -/

/-- Body of the `for proof_element in proof` loop of `verify_merkle_proof`:
decode each element, concatenate in sorted order, hash, and carry the result
as the new accumulator. -/
def foldProof : List String → List Nat → TxResult (List Nat)
  | [], acc => .ok acc
  | e :: rest, acc =>
    match hex_to_bytes e with
    | .err m => .err m
    | .panic m => .panic m
    | .ok proofBytes =>
      let combined := if lexLe acc proofBytes then acc ++ proofBytes
                      else proofBytes ++ acc
      foldProof rest (sha256 combined)

/-- `verify_merkle_proof` from `contract.rs`: decode the leaf, fold the proof
with sorted-pair SHA-256 hashing, and compare the `0x`-prefixed lowercase hex
rendering of the result with `root` by exact string equality. -/
def verify_merkle_proof (proof : List String) (root : String) (leaf_hash : String) :
    TxResult Bool :=
  match hex_to_bytes leaf_hash with
  | .err m => .err m
  | .panic m => .panic m
  | .ok leafBytes =>
    match foldProof proof leafBytes with
    | .err m => .err m
    | .panic m => .panic m
    | .ok computed => .ok (("0x" ++ hexEncodeStr computed) == root)

/-- `compute_leaf_hash` from `contract.rs`: SHA-256 of `"address:amount"`,
rendered as `0x`-prefixed lowercase hex. -/
def compute_leaf_hash (address : String) (amount : String) : String :=
  "0x" ++ hexEncodeStr (sha256 (strBytes (address ++ ":" ++ amount)))

/-! ### Contract state (`state.rs`), following the fields `contract.rs`
actually uses (the `Config` in `state.rs` lacks `backend_wallet`, which
`contract.rs` reads; the executable code is the authority). -/

/-- The stored `Config`. -/
structure Config where
  owner : String
  backend_wallet : String
  erth_token_contract : String
  erth_token_hash : String
  allocation_contract : String
  allocation_hash : String
  deriving DecidableEq, Repr

/-- The stored global `State` (`pending_reward: Uint128`,
`current_round_id: u64`). -/
structure State where
  pending_reward : Nat
  current_round_id : Nat
  deriving DecidableEq, Repr

/-- The stored `AirdropRound`. -/
structure AirdropRound where
  round_id : Nat
  merkle_root : String
  total_amount : Nat
  total_stake : Nat
  claimed_amount : Nat
  start_time : Nat
  deriving DecidableEq, Repr

/-- Whole contract storage: the three singletons (`CURRENT_ROUND` may be
absent before the first reset) and the `CLAIMS` keymap as an association
list, newest entry first. -/
structure ContractState where
  config : Config
  state : State
  current_round : Option AirdropRound
  claims : List ((Nat × String) × String)
  deriving DecidableEq, Repr

/-- `CLAIMS.get(storage, &(round_id, addr))`. -/
def claimsGet (claims : List ((Nat × String) × String)) (rid : Nat) (addr : String) :
    Option String :=
  (claims.find? (fun e => e.1.1 == rid && e.1.2 == addr)).map (·.2)

/-- `CLAIMS.insert(storage, &(round_id, addr), &value)`. -/
def claimsInsert (claims : List ((Nat × String) × String)) (rid : Nat) (addr : String)
    (value : String) : List ((Nat × String) × String) :=
  ((rid, addr), value) :: claims

/-- One outbound message of a `Response`. -/
inductive OutMsg where
  | snip20Transfer (recipient : String) (amount : Nat)
      (token_hash : String) (token_contract : String)
  | wasmExecute (contract_addr : String) (code_hash : String) (allocation_id : Nat)
  deriving DecidableEq, Repr

/-- A contract `Response`: outbound messages plus attributes. -/
structure Response where
  messages : List OutMsg
  attributes : List (String × String)
  deriving DecidableEq, Repr

/-! ### Execute and query entry points (`contract.rs`) -/

/-- `execute_claim` from `contract.rs`: load the round, reject a repeat claim,
verify the Merkle proof for the leaf of `(sender, stake)`, compute the
proportional payout with `multiply_ratio`, record the claim, bump
`claimed_amount`, and emit the SNIP-20 transfer plus the allocation-claim
message. -/
def execute_claim (st : ContractState) (sender : String) (stake_amount : Nat)
    (proof : List String) : TxResult (ContractState × Response) :=
  let config := st.config
  match st.current_round with
  | none => .err "No active airdrop round"
  | some round =>
    if (claimsGet st.claims round.round_id sender).isSome then
      .err "Already claimed for this round"
    else
      let leaf_hash := compute_leaf_hash sender (toString stake_amount)
      match verify_merkle_proof proof round.merkle_root leaf_hash with
      | .err m => .err m
      | .panic m => .panic m
      | .ok false => .err "Invalid merkle proof"
      | .ok true =>
        match mulDiv128 round.total_amount stake_amount round.total_stake with
        | .err m => .err m
        | .panic m => .panic m
        | .ok claim_amount =>
          match addU128 round.claimed_amount claim_amount with
          | .err m => .err m
          | .panic m => .panic m
          | .ok claimed =>
            let claims := claimsInsert st.claims round.round_id sender
              (toString stake_amount)
            let round := { round with claimed_amount := claimed }
            .ok ({ st with claims := claims, current_round := some round },
              { messages :=
                  [.snip20Transfer sender claim_amount config.erth_token_hash
                     config.erth_token_contract,
                   .wasmExecute config.allocation_contract config.allocation_hash 4],
                attributes :=
                  [("action", "claim"), ("address", sender),
                   ("claim_amount", toString claim_amount),
                   ("round_id", toString round.round_id)] })

/-- The `let unclaimed = if state.current_round_id > 0 { ... } else { ... }`
computation of `execute_reset_airdrop`: the unclaimed remainder of the
previous round, `0` when no round was created yet. -/
def resetUnclaimed (st : ContractState) : TxResult Nat :=
  if st.state.current_round_id > 0 then
    match st.current_round with
    | none => .err "AirdropRound not found"
    | some prev => subU128 prev.total_amount prev.claimed_amount
  else .ok 0

/-- `execute_reset_airdrop` from `contract.rs`: backend-only; carries the
unclaimed remainder of the previous round (when `current_round_id > 0`) plus
`pending_reward` into a fresh round, increments the round id and clears
`pending_reward`. -/
def execute_reset_airdrop (st : ContractState) (sender : String) (env_time : Nat)
    (merkle_root : String) (total_stake : Nat) : TxResult (ContractState × Response) :=
  let config := st.config
  if sender ≠ config.backend_wallet then
    .err "Unauthorized: only backend wallet can reset airdrop"
  else
    let state := st.state
    match resetUnclaimed st with
    | .err m => .err m
    | .panic m => .panic m
    | .ok unclaimed =>
      let round_id := state.current_round_id + 1
      match addU128 state.pending_reward unclaimed with
      | .err m => .err m
      | .panic m => .panic m
      | .ok new_total =>
        let new_round : AirdropRound :=
          { round_id := round_id, merkle_root := merkle_root,
            total_amount := new_total, total_stake := total_stake,
            claimed_amount := 0, start_time := env_time }
        .ok ({ st with
                current_round := some new_round,
                state := { pending_reward := 0, current_round_id := round_id } },
          { messages := [],
            attributes :=
              [("action", "reset_airdrop"),
               ("new_round_id", toString round_id),
               ("merkle_root", merkle_root),
               ("total_amount", toString new_total),
               ("unclaimed_rollover", toString unclaimed)] })

/-- `receive_allocation` from `contract.rs` (reached from the SNIP-20
`Receive` hook): add the received amount to `pending_reward`. -/
def receive_allocation (st : ContractState) (amount : Nat) :
    TxResult (ContractState × Response) :=
  match addU128 st.state.pending_reward amount with
  | .err m => .err m
  | .panic m => .panic m
  | .ok pending =>
    .ok ({ st with state := { st.state with pending_reward := pending } },
      { messages := [],
        attributes := [("action", "receive_allocation"), ("amount", toString amount)] })

/-- Response of the `HasClaimed` query. -/
structure HasClaimedResponse where
  has_claimed : Bool
  amount : Option String
  deriving DecidableEq, Repr

/-- `query_has_claimed` from `contract.rs`: look the address up in `CLAIMS`
under the *current* round id; fails when `CURRENT_ROUND` was never stored. -/
def query_has_claimed (st : ContractState) (address : String) :
    TxResult HasClaimedResponse :=
  match st.current_round with
  | none => .err "AirdropRound not found"
  | some round =>
    let amount := claimsGet st.claims round.round_id address
    .ok { has_claimed := amount.isSome, amount := amount }

/-! ### Specification-side Merkle verifier (for the refinement claim)

These definitions follow the words of spec §4.1: "compute
`leaf = SHA-256(participantIdentity + ":" + claimedStake)` ... Fold the proof
left to right: at each step, decode the proof element to raw bytes, compare
the current accumulator and the proof element as unsigned byte sequences,
concatenate the lexicographically smaller first, hash the concatenation with
SHA-256, and replace the accumulator.  After folding all elements, the
accumulator must equal `root` ... for success." -/

/-- Concatenation with the lexicographically smaller byte sequence first, as
the spec words it. -/
def specSortedPair (acc elem : List Nat) : List Nat :=
  if lexLt elem acc then elem ++ acc else acc ++ elem

/-- The spec's left-to-right fold over the proof elements. -/
def specFold : List String → List Nat → TxResult (List Nat)
  | [], acc => .ok acc
  | e :: rest, acc =>
    match hex_to_bytes e with
    | .err m => .err m
    | .panic m => .panic m
    | .ok elem => specFold rest (sha256 (specSortedPair acc elem))

/-- The spec's verifier contract
`verify(proof, root, participantIdentity, claimedStake)`. -/
def specVerify (proof : List String) (root : String)
    (identity : String) (claimedStake : String) : TxResult Bool :=
  let leaf := sha256 (strBytes (identity ++ ":" ++ claimedStake))
  match specFold proof leaf with
  | .err m => .err m
  | .panic m => .panic m
  | .ok acc => .ok (("0x" ++ hexEncodeStr acc) == root)

/-! ### Sequences of claim transactions -/

/-- Run a list of `Claim` requests `(sender, stake, proof)` as successive
transactions: a failed transaction (error or panic) is rolled back by the
host and the sequence continues from the unchanged state.  Returns the final
state and the `(sender, stake)` list of the successful claims, in order. -/
def runClaims : ContractState → List (String × Nat × List String) →
    ContractState × List (String × Nat)
  | st, [] => (st, [])
  | st, (sender, stake, proof) :: rest =>
    match execute_claim st sender stake proof with
    | .ok (st1, _) =>
      let out := runClaims st1 rest
      (out.1, (sender, stake) :: out.2)
    | .err _ => runClaims st rest
    | .panic _ => runClaims st rest

/-- Sum of the proportional payouts `⌊T * stake / S⌋` of a list of successful
claims. -/
def payoutSum (T S : Nat) (l : List (String × Nat)) : Nat :=
  (l.map (fun p => T * p.2 / S)).sum

/-- Sum of the stakes of a list of successful claims. -/
def stakeSum (l : List (String × Nat)) : Nat :=
  (l.map (fun p => p.2)).sum

/-! ### Concrete fixture states used by witnesses and counterexamples -/

/-- A sample configuration. -/
def exConfig : Config := ⟨"own", "backend", "erth", "ehash", "alloc", "ahash"⟩

/-- Merkle root of the single-leaf tree for `("addrA", "100")`. -/
def exRoot100 : String := compute_leaf_hash "addrA" "100"

/-- Merkle root of the single-leaf tree for `("addrA", "400")`. -/
def exRoot400 : String := compute_leaf_hash "addrA" "400"

/-- Round 1 with `totalAmount = 800`, `totalStake = 400`, nothing claimed:
the end-to-end example of spec §8. -/
def exSt800 : ContractState :=
  ⟨exConfig, ⟨0, 1⟩, some ⟨1, exRoot100, 800, 400, 0, 7⟩, []⟩

/-- Round 1 with `totalAmount = 800` but `totalStake = 1`, inconsistent with
the stake `400` committed in its Merkle root. -/
def exStBig : ContractState :=
  ⟨exConfig, ⟨0, 1⟩, some ⟨1, exRoot400, 800, 1, 0, 7⟩, []⟩

/-- Round 1 with `totalStake = 0`. -/
def exStZeroS : ContractState :=
  ⟨exConfig, ⟨0, 1⟩, some ⟨1, exRoot100, 800, 0, 0, 7⟩, []⟩

/-- State before any round was created, with `pendingReward = 1234`. -/
def exStFresh : ContractState := ⟨exConfig, ⟨1234, 0⟩, none, []⟩

/-- State before any round was created, with `pendingReward = 50`. -/
def exStFresh50 : ContractState := ⟨exConfig, ⟨50, 0⟩, none, []⟩

/-- Round 1 `{totalAmount := 1000, claimedAmount := 400}` with
`pendingReward = 50`: the rollover example of spec §8. -/
def exStPrev : ContractState :=
  ⟨exConfig, ⟨50, 1⟩, some ⟨1, "0xdead", 1000, 400, 400, 7⟩, []⟩

/-- State after resetting `exStPrev` with root `"0xroot"` and total stake
`500`. -/
def exStPrev' : ContractState :=
  ⟨exConfig, ⟨0, 2⟩, some ⟨2, "0xroot", 650, 500, 0, 9⟩, []⟩

/-- Response of that reset. -/
def exRespPrev : Response :=
  ⟨[], [("action", "reset_airdrop"), ("new_round_id", "2"), ("merkle_root", "0xroot"),
        ("total_amount", "650"), ("unclaimed_rollover", "600")]⟩

/-- Round 2 active, `addrA` holds a claim record from round 1 only. -/
def exStOldClaim : ContractState :=
  ⟨exConfig, ⟨0, 2⟩, some ⟨2, "0xbeef", 500, 100, 0, 9⟩, [((1, "addrA"), "100")]⟩

/-- Round 1 active, `addrA` holds a claim record for it. -/
def exStCurClaim : ContractState :=
  ⟨exConfig, ⟨0, 1⟩, some ⟨1, "0xbeef", 500, 100, 0, 9⟩, [((1, "addrA"), "100")]⟩

/-- State after `addrA` claims stake `100` on `exSt800`. -/
def exSt800' : ContractState :=
  ⟨exConfig, ⟨0, 1⟩, some ⟨1, exRoot100, 800, 400, 200, 7⟩, [((1, "addrA"), "100")]⟩

/-- Response of that claim. -/
def exResp800 : Response :=
  ⟨[.snip20Transfer "addrA" 200 "ehash" "erth", .wasmExecute "alloc" "ahash" 4],
   [("action", "claim"), ("address", "addrA"), ("claim_amount", "200"),
    ("round_id", "1")]⟩

/-! ## Theorems -/

/-! ### Ordering and hex lemmas -/

theorem natCmp_self (a : Nat) : natCmp a a = .eq := by
  simp [natCmp]

theorem natCmp_eq_iff (a b : Nat) : natCmp a b = .eq ↔ a = b := by
  unfold natCmp
  split <;> rename_i h1
  · simp; omega
  · split <;> rename_i h2
    · simp; omega
    · simp; omega

theorem natCmp_gt_iff_lt (a b : Nat) : natCmp a b = .gt ↔ natCmp b a = .lt := by
  unfold natCmp
  rcases Nat.lt_trichotomy a b with h | h | h
  · simp [h, Nat.lt_asymm h]
  · subst h
    simp
  · simp [h, Nat.lt_asymm h]

theorem lexCmp_self (a : List Nat) : lexCmp a a = .eq := by
  induction a with
  | nil => rfl
  | cons x xs ih => simp [lexCmp, natCmp_self, ih]

theorem lexCmp_eq_iff : ∀ a b : List Nat, lexCmp a b = .eq ↔ a = b := by
  intro a
  induction a with
  | nil => intro b; cases b <;> simp [lexCmp]
  | cons x xs ih =>
    intro b
    cases b with
    | nil => simp [lexCmp]
    | cons y ys =>
      simp only [lexCmp]
      cases h : natCmp x y with
      | eq =>
        have hxy : x = y := (natCmp_eq_iff x y).mp h
        simp [hxy, ih ys]
      | lt =>
        have : ¬ x = y := by
          intro he; rw [he, natCmp_self] at h; exact absurd h (by simp)
        simp [this]
      | gt =>
        have : ¬ x = y := by
          intro he; rw [he, natCmp_self] at h; exact absurd h (by simp)
        simp [this]

theorem lexCmp_gt_iff_lt : ∀ a b : List Nat, lexCmp a b = .gt ↔ lexCmp b a = .lt := by
  intro a
  induction a with
  | nil => intro b; cases b <;> simp [lexCmp]
  | cons x xs ih =>
    intro b
    cases b with
    | nil => simp [lexCmp]
    | cons y ys =>
      simp only [lexCmp]
      cases h : natCmp x y with
      | eq =>
        have hxy : x = y := (natCmp_eq_iff x y).mp h
        subst hxy
        rw [natCmp_self]
        exact ih ys
      | lt =>
        have h2 : natCmp y x = .gt := by
          rw [natCmp_gt_iff_lt]; exact h
        simp [h2]
      | gt =>
        have h2 : natCmp y x = .lt := (natCmp_gt_iff_lt x y).mp h
        simp [h2]

/-- The source's sorted-pair concatenation agrees with the spec's
"lexicographically smaller first". -/
theorem sortedPair_eq (a b : List Nat) :
    (if lexLe a b then a ++ b else b ++ a) = specSortedPair a b := by
  unfold lexLe specSortedPair lexLt
  cases h : lexCmp a b with
  | lt =>
    have h2 : lexCmp b a = .gt := by rw [lexCmp_gt_iff_lt]; exact h
    simp [h2]
  | eq =>
    have hab : a = b := (lexCmp_eq_iff a b).mp h
    subst hab
    simp [lexCmp_self]
  | gt =>
    have h2 : lexCmp b a = .lt := (lexCmp_gt_iff_lt a b).mp h
    simp [h, h2]

theorem hexVal_hexDigit : ∀ n : Nat, n < 16 → hexVal (hexDigit n) = some n := by decide

theorem hexDecode_hexEncode (bs : List Nat) (h : ∀ b ∈ bs, b < 256) :
    hexDecodeChars (hexEncodeChars bs) = some bs := by
  induction bs with
  | nil => rfl
  | cons b rest ih =>
    have hb : b < 256 := h b (List.mem_cons_self b rest)
    have h1 : b / 16 < 16 := by omega
    have h2 : b % 16 < 16 := Nat.mod_lt _ (by norm_num)
    have ih' := ih (fun x hx => h x (List.mem_cons_of_mem b hx))
    have hunf : hexEncodeChars (b :: rest) =
        hexDigit (b / 16) :: hexDigit (b % 16) :: hexEncodeChars rest := by
      simp [hexEncodeChars]
    rw [hunf]
    simp only [hexDecodeChars, hexVal_hexDigit _ h1, hexVal_hexDigit _ h2, ih']
    have : 16 * (b / 16) + b % 16 = b := Nat.div_add_mod b 16
    rw [this]

theorem sha256_bytes_lt (msg : List Nat) : ∀ b ∈ sha256 msg, b < 256 := by
  intro b hb
  unfold sha256 at hb
  rw [List.mem_flatten] at hb
  obtain ⟨l, hl, hbl⟩ := hb
  rw [List.mem_map] at hl
  obtain ⟨w, _, rfl⟩ := hl
  simp only [List.mem_cons, List.not_mem_nil, or_false] at hbl
  rcases hbl with rfl | rfl | rfl | rfl <;> exact Nat.mod_lt _ (by norm_num)

theorem hex_to_bytes_leaf (a s : String) :
    hex_to_bytes (compute_leaf_hash a s) =
      .ok (sha256 (strBytes (a ++ ":" ++ s))) := by
  unfold compute_leaf_hash hex_to_bytes
  have hstrip : strip0x ("0x" ++ hexEncodeStr (sha256 (strBytes (a ++ ":" ++ s)))) =
      hexEncodeChars (sha256 (strBytes (a ++ ":" ++ s))) := rfl
  rw [hstrip, hexDecode_hexEncode _ (sha256_bytes_lt _)]

/-! ### C7: the Merkle verifier algorithm -/

theorem foldProof_eq_specFold : ∀ (l : List String) (acc : List Nat),
    foldProof l acc = specFold l acc := by
  intro l
  induction l with
  | nil => intro acc; rfl
  | cons e rest ih =>
    intro acc
    simp only [foldProof, specFold]
    cases hex_to_bytes e with
    | ok bs => simp only [sortedPair_eq, ih]
    | err m => rfl
    | panic m => rfl

/-- C7: for every identity, stake string, proof list and root, the verifier
run by `Claim` (leaf = `0x`-prefixed lowercase SHA-256 hex of
`"identity:stake"`, left-to-right fold with the lexicographically smaller
byte sequence concatenated first and SHA-256 applied at each step) computes
exactly the verifier the spec describes, and with an empty proof it accepts
exactly when the leaf string itself equals the root string. -/
theorem C7_verifier_algorithm (identity stake : String) (proof : List String)
    (root : String) :
    verify_merkle_proof proof root (compute_leaf_hash identity stake) =
      specVerify proof root identity stake ∧
    verify_merkle_proof [] root (compute_leaf_hash identity stake) =
      .ok (compute_leaf_hash identity stake == root) := by
  constructor
  · simp only [verify_merkle_proof, specVerify, hex_to_bytes_leaf, foldProof_eq_specFold]
  · simp only [verify_merkle_proof, hex_to_bytes_leaf, foldProof]
    rfl

/-! ### C8: the final root comparison is exact, not normalization-insensitive -/

/-- C8 counterexample: with an empty proof and the leaf `"0xab"`, the stored
roots `"ab"` (prefix missing) and `"0xAB"` (uppercase) denote the same byte
sequence `[0xab]` as the accepted root `"0xab"`, yet verification returns
`false` for both. -/
theorem C8_counterexample :
    verify_merkle_proof [] "ab" "0xab" = .ok false ∧
    verify_merkle_proof [] "0xAB" "0xab" = .ok false ∧
    verify_merkle_proof [] "0xab" "0xab" = .ok true ∧
    hex_to_bytes "ab" = .ok [171] ∧
    hex_to_bytes "0xAB" = .ok [171] ∧
    hex_to_bytes "0xab" = .ok [171] := by decide

/-- C8 amended: the final comparison is exact string equality against the
`0x`-prefixed lowercase rendering of the computed accumulator, so at most one
root string is ever accepted for a given proof and leaf; a stored root that
denotes the same hash in a different case or without the `0x` prefix is
rejected (proof elements and the leaf, by contrast, are decoded case- and
prefix-insensitively). -/
theorem C8_root_comparison_exact (proof : List String) (leaf root root' : String)
    (hok : verify_merkle_proof proof root leaf = .ok true)
    (hne : root' ≠ root) :
    verify_merkle_proof proof root' leaf = .ok false := by
  cases h1 : hex_to_bytes leaf with
  | err m => simp [verify_merkle_proof, h1] at hok
  | panic m => simp [verify_merkle_proof, h1] at hok
  | ok bs =>
    cases h2 : foldProof proof bs with
    | err m => simp [verify_merkle_proof, h1, h2] at hok
    | panic m => simp [verify_merkle_proof, h1, h2] at hok
    | ok computed =>
      simp only [verify_merkle_proof, h1, h2, TxResult.ok.injEq, beq_iff_eq] at hok
      simp only [verify_merkle_proof, h1, h2, TxResult.ok.injEq, beq_eq_false_iff_ne, ne_eq]
      rw [hok]
      exact fun h => hne h.symm

theorem C8_root_comparison_exact_witness :
    verify_merkle_proof [] "AB" "0xab" = .ok false :=
  C8_root_comparison_exact [] "0xab" "0xab" "AB" (by decide) (by decide)

/-! ### C9: reset is backend-gated -/

/-- C9: a `ResetAirdrop` call by any sender other than the configured backend
wallet returns the authorization error; in this model an `err` result is a
rolled-back transaction, so no state field changes and no outbound message is
emitted. -/
theorem C9_reset_unauthorized (st : ContractState) (sender : String)
    (env_time : Nat) (merkle_root : String) (total_stake : Nat)
    (h : sender ≠ st.config.backend_wallet) :
    execute_reset_airdrop st sender env_time merkle_root total_stake =
      .err "Unauthorized: only backend wallet can reset airdrop" := by
  unfold execute_reset_airdrop
  rw [if_pos h]

theorem C9_reset_unauthorized_witness :
    execute_reset_airdrop exStPrev "mallory" 9 "0xroot" 500 =
      .err "Unauthorized: only backend wallet can reset airdrop" :=
  C9_reset_unauthorized exStPrev "mallory" 9 "0xroot" 500 (by decide)

/-! ### C6: repeat claims are rejected before proof verification -/

/-- C6: a sender who already holds a claim record for the current round gets
`Already claimed for this round` for every stake and every proof — valid,
invalid or even malformed — because the ledger check precedes leaf
computation and proof verification; the `err` result is a rolled-back
transaction, so no transfer is emitted and no state changes. -/
theorem C6_repeat_claim_rejected (st : ContractState) (sender : String)
    (stake : Nat) (proof : List String) (r : AirdropRound)
    (hr : st.current_round = some r)
    (hc : (claimsGet st.claims r.round_id sender).isSome = true) :
    execute_claim st sender stake proof = .err "Already claimed for this round" := by
  simp only [execute_claim, hr, hc, if_true]

theorem C6_repeat_claim_rejected_witness :
    execute_claim exStCurClaim "addrA" 999 ["zz-not-hex"] =
      .err "Already claimed for this round" :=
  C6_repeat_claim_rejected exStCurClaim "addrA" 999 ["zz-not-hex"] ⟨1, "0xbeef", 500, 100, 0, 9⟩
    rfl (by decide)

/-! ### C10: the HasClaimed query is scoped to the current round -/

/-- C10: `HasClaimed` answers from the claim ledger keyed by the *current*
round id only, so an address that claimed only in an earlier round gets
`has_claimed = false` with no amount, an address with a record for the active
round gets back exactly the recorded stake string, and when no round was ever
created the query fails with an error instead of answering `false`. -/
theorem C10_has_claimed_scoped :
    (∀ (st : ContractState) (addr : String) (r : AirdropRound),
      st.current_round = some r →
      query_has_claimed st addr =
        .ok ⟨(claimsGet st.claims r.round_id addr).isSome,
             claimsGet st.claims r.round_id addr⟩) ∧
    (∀ (st : ContractState) (addr : String) (r : AirdropRound),
      st.current_round = some r →
      claimsGet st.claims r.round_id addr = none →
      query_has_claimed st addr = .ok ⟨false, none⟩) ∧
    (∀ (st : ContractState) (addr : String),
      st.current_round = none →
      query_has_claimed st addr = .err "AirdropRound not found") := by
  refine ⟨?_, ?_, ?_⟩
  · intro st addr r hr
    simp only [query_has_claimed, hr]
  · intro st addr r hr hnone
    simp only [query_has_claimed, hr, hnone, Option.isSome_none]
  · intro st addr hr
    simp only [query_has_claimed, hr]

theorem C10_has_claimed_scoped_witness :
    query_has_claimed exStOldClaim "addrA" = .ok ⟨false, none⟩ ∧
    query_has_claimed exStCurClaim "addrA" = .ok ⟨true, some "100"⟩ ∧
    query_has_claimed exStFresh "addrA" = .err "AirdropRound not found" := by
  refine ⟨?_, ?_, ?_⟩
  · exact C10_has_claimed_scoped.2.1 exStOldClaim "addrA" ⟨2, "0xbeef", 500, 100, 0, 9⟩
      rfl (by decide)
  · have h := C10_has_claimed_scoped.1 exStCurClaim "addrA" ⟨1, "0xbeef", 500, 100, 0, 9⟩ rfl
    exact h
  · exact C10_has_claimed_scoped.2.2 exStFresh "addrA" rfl

/-! ### Inversion of a successful reset -/

theorem resetUnclaimed_ok {st : ContractState} {u : Nat}
    (h : resetUnclaimed st = .ok u) :
    (st.state.current_round_id = 0 ∧ u = 0) ∨
    (0 < st.state.current_round_id ∧ ∃ prev, st.current_round = some prev ∧
      prev.claimed_amount ≤ prev.total_amount ∧
      u = prev.total_amount - prev.claimed_amount) := by
  unfold resetUnclaimed at h
  rcases Nat.eq_zero_or_pos st.state.current_round_id with h0 | hpos
  · rw [h0] at h
    simp only [gt_iff_lt, Nat.lt_irrefl, if_false, TxResult.ok.injEq] at h
    exact Or.inl ⟨h0, h.symm⟩
  · rw [if_pos hpos] at h
    cases hcr : st.current_round with
    | none => simp [hcr] at h
    | some prev =>
      simp only [hcr] at h
      unfold subU128 at h
      split at h
      · rename_i hsub
        simp only [TxResult.ok.injEq] at h
        exact Or.inr ⟨hpos, prev, rfl, hsub, h.symm⟩
      · exact absurd h (by simp)

theorem execute_reset_airdrop_ok {st st' : ContractState} {sender : String}
    {env_time : Nat} {merkle_root : String} {total_stake : Nat} {resp : Response}
    (hok : execute_reset_airdrop st sender env_time merkle_root total_stake =
      .ok (st', resp)) :
    ∃ unclaimed,
      sender = st.config.backend_wallet ∧
      ((st.state.current_round_id = 0 ∧ unclaimed = 0) ∨
       (0 < st.state.current_round_id ∧ ∃ prev, st.current_round = some prev ∧
         prev.claimed_amount ≤ prev.total_amount ∧
         unclaimed = prev.total_amount - prev.claimed_amount)) ∧
      st.state.pending_reward + unclaimed ≤ u128Max ∧
      st' = { st with
        current_round := some ⟨st.state.current_round_id + 1, merkle_root,
          st.state.pending_reward + unclaimed, total_stake, 0, env_time⟩,
        state := ⟨0, st.state.current_round_id + 1⟩ } := by
  by_cases hsender : sender = st.config.backend_wallet
  · cases hunc : resetUnclaimed st with
    | err m => simp [execute_reset_airdrop, hsender, hunc] at hok
    | panic m => simp [execute_reset_airdrop, hsender, hunc] at hok
    | ok unclaimed =>
      cases hadd : addU128 st.state.pending_reward unclaimed with
      | err m => simp [execute_reset_airdrop, hsender, hunc, hadd] at hok
      | panic m => simp [execute_reset_airdrop, hsender, hunc, hadd] at hok
      | ok new_total =>
        have hle : st.state.pending_reward + unclaimed ≤ u128Max ∧
            new_total = st.state.pending_reward + unclaimed := by
          unfold addU128 at hadd
          split at hadd
          · rename_i h
            simp only [TxResult.ok.injEq] at hadd
            exact ⟨h, hadd.symm⟩
          · exact absurd hadd (by simp)
        simp only [execute_reset_airdrop, hsender, ne_eq, not_true_eq_false, if_false,
          ite_false, hunc, hadd, TxResult.ok.injEq, Prod.mk.injEq] at hok
        refine ⟨unclaimed, hsender, resetUnclaimed_ok hunc, hle.1, ?_⟩
        rw [← hok.1, hle.2]
  · unfold execute_reset_airdrop at hok
    rw [if_pos hsender] at hok
    exact absurd hok (by simp)

/-! ### C5: rollover arithmetic of a successful reset -/

/-- C5: every successful `ResetAirdrop` produces a round whose id is the old
`currentRoundId + 1`, stores that id and `pendingReward = 0` in the global
state atomically, and sets `totalAmount = pendingReward + unclaimed` where
`unclaimed` is `prior.totalAmount - prior.claimedAmount` when a round existed
(`currentRoundId > 0`) and `0` otherwise. -/
theorem C5_reset_rollover (st st' : ContractState) (sender : String)
    (env_time : Nat) (merkle_root : String) (total_stake : Nat) (resp : Response)
    (hok : execute_reset_airdrop st sender env_time merkle_root total_stake =
      .ok (st', resp)) :
    st'.state.current_round_id = st.state.current_round_id + 1 ∧
    st'.state.pending_reward = 0 ∧
    st'.current_round.map AirdropRound.round_id = some (st.state.current_round_id + 1) ∧
    st'.current_round.map AirdropRound.claimed_amount = some 0 ∧
    st'.current_round.map AirdropRound.total_stake = some total_stake ∧
    st'.current_round.map AirdropRound.merkle_root = some merkle_root ∧
    st'.current_round.map AirdropRound.start_time = some env_time ∧
    (st.state.current_round_id = 0 →
      st'.current_round.map AirdropRound.total_amount = some st.state.pending_reward) ∧
    (∀ prev, st.current_round = some prev → 0 < st.state.current_round_id →
      st'.current_round.map AirdropRound.total_amount =
        some (st.state.pending_reward + (prev.total_amount - prev.claimed_amount))) := by
  obtain ⟨unclaimed, _, hcase, _, hst'⟩ := execute_reset_airdrop_ok hok
  subst hst'
  refine ⟨rfl, rfl, rfl, rfl, rfl, rfl, rfl, ?_, ?_⟩
  · intro h0
    rcases hcase with ⟨_, rfl⟩ | ⟨hpos, _⟩
    · simp
    · omega
  · intro prev hprev hpos
    rcases hcase with ⟨h0, _⟩ | ⟨_, prev', hprev', _, rfl⟩
    · omega
    · rw [hprev] at hprev'
      cases hprev'
      rfl

theorem C5_reset_rollover_witness :
    exStPrev'.state.current_round_id = 2 ∧
    exStPrev'.state.pending_reward = 0 ∧
    exStPrev'.current_round.map AirdropRound.total_amount = some 650 := by
  obtain ⟨h1, h2, _, _, _, _, _, _, hroll⟩ :=
    C5_reset_rollover exStPrev exStPrev' "backend" 9 "0xroot" 500 exRespPrev (by decide)
  exact ⟨h1, h2, hroll ⟨1, "0xdead", 1000, 400, 400, 7⟩ rfl (by decide)⟩

/-! ### Inversion of a successful claim -/

theorem execute_claim_ok {st st' : ContractState} {sender : String} {stake : Nat}
    {proof : List String} {resp : Response} {r : AirdropRound}
    (hok : execute_claim st sender stake proof = .ok (st', resp))
    (hr : st.current_round = some r) :
    0 < r.total_stake ∧
    claimsGet st.claims r.round_id sender = none ∧
    r.total_amount * stake / r.total_stake ≤ u128Max ∧
    r.claimed_amount + r.total_amount * stake / r.total_stake ≤ u128Max ∧
    st' = { st with
      claims := claimsInsert st.claims r.round_id sender (toString stake),
      current_round := some { r with claimed_amount :=
        r.claimed_amount + r.total_amount * stake / r.total_stake } } ∧
    resp = ⟨[.snip20Transfer sender (r.total_amount * stake / r.total_stake)
        st.config.erth_token_hash st.config.erth_token_contract,
      .wasmExecute st.config.allocation_contract st.config.allocation_hash 4],
      [("action", "claim"), ("address", sender),
       ("claim_amount", toString (r.total_amount * stake / r.total_stake)),
       ("round_id", toString r.round_id)]⟩ := by
  by_cases hc : (claimsGet st.claims r.round_id sender).isSome
  · simp [execute_claim, hr, hc] at hok
  · cases hv : verify_merkle_proof proof r.merkle_root
        (compute_leaf_hash sender (toString stake)) with
    | err m => simp [execute_claim, hr, hc, hv] at hok
    | panic m => simp [execute_claim, hr, hc, hv] at hok
    | ok b =>
      cases b with
      | false => simp [execute_claim, hr, hc, hv] at hok
      | true =>
        cases hm : mulDiv128 r.total_amount stake r.total_stake with
        | err m => simp [execute_claim, hr, hc, hv, hm] at hok
        | panic m => simp [execute_claim, hr, hc, hv, hm] at hok
        | ok amount =>
          have hmv : 0 < r.total_stake ∧
              amount = r.total_amount * stake / r.total_stake ∧
              r.total_amount * stake / r.total_stake ≤ u128Max := by
            unfold mulDiv128 at hm
            split at hm
            · exact absurd hm (by simp)
            · rename_i hden
              split at hm
              · rename_i hle
                simp only [TxResult.ok.injEq] at hm
                exact ⟨Nat.pos_of_ne_zero hden, hm.symm, hle⟩
              · exact absurd hm (by simp)
          cases ha : addU128 r.claimed_amount amount with
          | err m => simp [execute_claim, hr, hc, hv, hm, ha] at hok
          | panic m => simp [execute_claim, hr, hc, hv, hm, ha] at hok
          | ok claimed =>
            have hav : r.claimed_amount + amount ≤ u128Max ∧
                claimed = r.claimed_amount + amount := by
              unfold addU128 at ha
              split at ha
              · rename_i h
                simp only [TxResult.ok.injEq] at ha
                exact ⟨h, ha.symm⟩
              · exact absurd ha (by simp)
            obtain ⟨hpos, hameq, hle1⟩ := hmv
            obtain ⟨hle2, hceq⟩ := hav
            subst hceq
            subst hameq
            have heq : execute_claim st sender stake proof =
                .ok ({ st with
                    claims := claimsInsert st.claims r.round_id sender (toString stake),
                    current_round := some { r with claimed_amount :=
                      r.claimed_amount + r.total_amount * stake / r.total_stake } },
                  ⟨[.snip20Transfer sender (r.total_amount * stake / r.total_stake)
                      st.config.erth_token_hash st.config.erth_token_contract,
                    .wasmExecute st.config.allocation_contract st.config.allocation_hash 4],
                    [("action", "claim"), ("address", sender),
                     ("claim_amount", toString (r.total_amount * stake / r.total_stake)),
                     ("round_id", toString r.round_id)]⟩) := by
              simp [execute_claim, hr, hc, hv, hm, ha]
            rw [heq] at hok
            simp only [TxResult.ok.injEq, Prod.mk.injEq] at hok
            exact ⟨hpos, Option.not_isSome_iff_eq_none.mp hc, hle1, hle2,
              hok.1.symm, hok.2.symm⟩

/-! ### C4: payout arithmetic of a successful claim -/

/-- C4: every successful claim with stake `s` against a round `(T, S)` has
`S > 0` and emits a transfer of exactly `⌊T * s / S⌋` (the widened
`multiply_ratio`, exact on `Nat`), and `claimedAmount` grows by exactly that
payout. -/
theorem C4_payout_formula (st st' : ContractState) (sender : String) (stake : Nat)
    (proof : List String) (resp : Response) (r : AirdropRound)
    (hok : execute_claim st sender stake proof = .ok (st', resp))
    (hr : st.current_round = some r) :
    0 < r.total_stake ∧
    resp.messages = [.snip20Transfer sender (r.total_amount * stake / r.total_stake)
        st.config.erth_token_hash st.config.erth_token_contract,
      .wasmExecute st.config.allocation_contract st.config.allocation_hash 4] ∧
    st'.current_round.map AirdropRound.claimed_amount =
      some (r.claimed_amount + r.total_amount * stake / r.total_stake) := by
  obtain ⟨hpos, _, _, _, hst, hresp⟩ := execute_claim_ok hok hr
  subst hst
  subst hresp
  exact ⟨hpos, rfl, rfl⟩

theorem C4_payout_formula_witness :
    exResp800.messages = [.snip20Transfer "addrA" 200 "ehash" "erth",
      .wasmExecute "alloc" "ahash" 4] ∧
    exSt800'.current_round.map AirdropRound.claimed_amount = some 200 := by
  have h := C4_payout_formula exSt800 exSt800' "addrA" 100 [] exResp800
    ⟨1, exRoot100, 800, 400, 0, 7⟩ (by decide) rfl
  exact ⟨h.2.1, h.2.2⟩

/-! ### C3: claiming against a zero-total-stake round panics -/

/-- C3 counterexample: with an active round whose `totalStake = 0` and an
otherwise valid claim (fresh claimant, valid proof), the call ends in the
`multiply_ratio` division-by-zero panic — a Rust panic that traps the VM —
and not in a structured `err` result, contradicting the claim's "a
caller-visible error result, not a crash". -/
theorem C3_counterexample :
    execute_claim exStZeroS "addrA" 100 [] = .panic "Denominator must not be zero" ∧
    (execute_claim exStZeroS "addrA" 100 []).isErr = false := by decide

/-- C3 amended: whenever the active round has `totalStake = 0` and a claim
passes the ledger and proof checks, `execute_claim` aborts with the
`multiply_ratio` division-by-zero panic; the transaction still commits
nothing (a `panic` result carries no successor state), but the failure is a
VM trap, not a structured `ArithmeticError` value. -/
theorem C3_zero_total_stake_panics (st : ContractState) (sender : String)
    (stake : Nat) (proof : List String) (r : AirdropRound)
    (hr : st.current_round = some r)
    (hnc : claimsGet st.claims r.round_id sender = none)
    (hv : verify_merkle_proof proof r.merkle_root
        (compute_leaf_hash sender (toString stake)) = .ok true)
    (hS : r.total_stake = 0) :
    execute_claim st sender stake proof = .panic "Denominator must not be zero" := by
  simp [execute_claim, hr, hnc, hv, mulDiv128, hS]

theorem C3_zero_total_stake_panics_witness :
    execute_claim exStZeroS "addrA" 100 [] = .panic "Denominator must not be zero" :=
  C3_zero_total_stake_panics exStZeroS "addrA" 100 []
    ⟨1, exRoot100, 800, 0, 0, 7⟩ rfl rfl (by decide) rfl

/-! ### C2: reset does not require a positive total stake -/

/-- C2 counterexample: an authorized reset with `newTotalStake = 0` succeeds
(no `ArithmeticError`, no failure at all) and installs an active round whose
`totalStake` is `0`, so `totalStake > 0` does not hold for every existing
round. -/
theorem C2_counterexample :
    execute_reset_airdrop exStFresh "backend" 9 "0xroot" 0 =
      .ok (⟨exConfig, ⟨0, 1⟩, some ⟨1, "0xroot", 1234, 0, 0, 9⟩, []⟩,
        ⟨[], [("action", "reset_airdrop"), ("new_round_id", "1"),
          ("merkle_root", "0xroot"), ("total_amount", "1234"),
          ("unclaimed_rollover", "0")]⟩) ∧
    AirdropRound.total_stake ⟨1, "0xroot", 1234, 0, 0, 9⟩ = 0 := by decide

/-- C2 amended: `execute_reset_airdrop` performs no check on the new total
stake: an authorized reset with `newTotalStake = 0` succeeds and creates a
round with `totalStake = 0` (on which every claim then aborts in the
division-by-zero panic, see C3), so the invariant `totalStake > 0` is not
enforced by the code. -/
theorem C2_zero_total_stake_accepted (st : ContractState) (env_time : Nat)
    (merkle_root : String)
    (h0 : st.state.current_round_id = 0)
    (hp : st.state.pending_reward ≤ u128Max) :
    execute_reset_airdrop st st.config.backend_wallet env_time merkle_root 0 =
      .ok ({ st with
          current_round := some ⟨1, merkle_root, st.state.pending_reward, 0, 0, env_time⟩,
          state := ⟨0, 1⟩ },
        ⟨[], [("action", "reset_airdrop"), ("new_round_id", "1"),
          ("merkle_root", merkle_root),
          ("total_amount", toString st.state.pending_reward),
          ("unclaimed_rollover", "0")]⟩) := by
  have hunc : resetUnclaimed st = .ok 0 := by
    unfold resetUnclaimed
    rw [h0]
    rfl
  have hadd : addU128 st.state.pending_reward 0 = .ok st.state.pending_reward := by
    unfold addU128
    rw [if_pos (by simpa using hp)]
    rw [Nat.add_zero]
  simp [execute_reset_airdrop, hunc, hadd, h0]
  exact ⟨rfl, rfl⟩

theorem C2_zero_total_stake_accepted_witness :
    execute_reset_airdrop exStFresh50 "backend" 9 "0xroot" 0 =
      .ok (⟨exConfig, ⟨0, 1⟩, some ⟨1, "0xroot", 50, 0, 0, 9⟩, []⟩,
        ⟨[], [("action", "reset_airdrop"), ("new_round_id", "1"),
          ("merkle_root", "0xroot"), ("total_amount", "50"),
          ("unclaimed_rollover", "0")]⟩) :=
  C2_zero_total_stake_accepted exStFresh50 9 "0xroot" rfl (by decide)

/-! ### Claim-ledger lemmas -/

theorem claimsGet_insert_self (cl : List ((Nat × String) × String)) (rid : Nat)
    (a v : String) : claimsGet (claimsInsert cl rid a v) rid a = some v := by
  simp [claimsGet, claimsInsert, List.find?_cons]

theorem claimsGet_cons_none {e : (Nat × String) × String}
    {cl : List ((Nat × String) × String)} {rid : Nat} {a : String}
    (h : claimsGet (e :: cl) rid a = none) : claimsGet cl rid a = none := by
  unfold claimsGet at h ⊢
  rw [Option.map_eq_none'] at h ⊢
  rw [List.find?_cons] at h
  split at h
  · exact absurd h (by simp)
  · exact h

/-! ### Arithmetic of proportional payout sums -/

theorem div_add_div_le (a b c : Nat) : a / c + b / c ≤ (a + b) / c := by
  rcases Nat.eq_zero_or_pos c with h | h
  · simp [h]
  · rw [Nat.le_div_iff_mul_le h, Nat.add_mul]
    exact Nat.add_le_add (Nat.div_mul_le_self a c) (Nat.div_mul_le_self b c)

theorem payoutSum_le_mul_div (T S : Nat) :
    ∀ l : List (String × Nat), payoutSum T S l ≤ T * stakeSum l / S := by
  intro l
  induction l with
  | nil => simp [payoutSum, stakeSum]
  | cons p rest ih =>
    have step : T * p.2 / S + payoutSum T S rest ≤
        T * p.2 / S + T * stakeSum rest / S := Nat.add_le_add_left ih _
    have step2 : T * p.2 / S + T * stakeSum rest / S ≤
        (T * p.2 + T * stakeSum rest) / S := div_add_div_le _ _ _
    have step3 : T * p.2 + T * stakeSum rest = T * (p.2 + stakeSum rest) := by ring
    calc payoutSum T S (p :: rest)
        = T * p.2 / S + payoutSum T S rest := by simp [payoutSum]
      _ ≤ (T * p.2 + T * stakeSum rest) / S := le_trans step step2
      _ = T * (p.2 + stakeSum rest) / S := by rw [step3]
      _ = T * stakeSum (p :: rest) / S := by simp [stakeSum]

theorem payoutSum_le_of_stakeSum_le (T S : Nat) (l : List (String × Nat))
    (h : stakeSum l ≤ S) : payoutSum T S l ≤ T := by
  rcases Nat.eq_zero_or_pos S with h0 | h0
  · subst h0
    have hz : payoutSum T 0 l = 0 := by
      induction l with
      | nil => simp [payoutSum]
      | cons p rest ih => simp [payoutSum, Nat.div_zero] at ih ⊢
    simp [hz]
  · calc payoutSum T S l ≤ T * stakeSum l / S := payoutSum_le_mul_div T S l
      _ ≤ T * S / S := Nat.div_le_div_right (Nat.mul_le_mul_left _ h)
      _ = T := Nat.mul_div_cancel _ h0

/-! ### Invariant of a sequence of claim transactions -/

theorem runClaims_spec : ∀ (reqs : List (String × Nat × List String))
    (st : ContractState) (r : AirdropRound), st.current_round = some r →
    ∃ r', (runClaims st reqs).1.current_round = some r' ∧
      r'.round_id = r.round_id ∧
      r'.total_amount = r.total_amount ∧
      r'.total_stake = r.total_stake ∧
      r'.claimed_amount = r.claimed_amount +
        payoutSum r.total_amount r.total_stake (runClaims st reqs).2 ∧
      ((runClaims st reqs).2.map Prod.fst).Nodup ∧
      (∀ p ∈ (runClaims st reqs).2, claimsGet st.claims r.round_id p.1 = none) := by
  intro reqs
  induction reqs with
  | nil =>
    intro st r hr
    refine ⟨r, hr, rfl, rfl, rfl, ?_, ?_, ?_⟩ <;> simp [runClaims, payoutSum]
  | cons req rest ih =>
    intro st r hr
    obtain ⟨sender, stake, proof⟩ := req
    cases hstep : execute_claim st sender stake proof with
    | err m =>
      have hrun : runClaims st ((sender, stake, proof) :: rest) = runClaims st rest := by
        simp [runClaims, hstep]
      rw [hrun]
      exact ih st r hr
    | panic m =>
      have hrun : runClaims st ((sender, stake, proof) :: rest) = runClaims st rest := by
        simp [runClaims, hstep]
      rw [hrun]
      exact ih st r hr
    | ok out =>
      obtain ⟨st1, resp⟩ := out
      obtain ⟨_, hnone, _, _, hst1, _⟩ := execute_claim_ok hstep hr
      have hr1 : st1.current_round = some { r with claimed_amount :=
          r.claimed_amount + r.total_amount * stake / r.total_stake } := by
        rw [hst1]
      have hclaims1 : st1.claims =
          claimsInsert st.claims r.round_id sender (toString stake) := by
        rw [hst1]
      have hrun : runClaims st ((sender, stake, proof) :: rest) =
          ((runClaims st1 rest).1, (sender, stake) :: (runClaims st1 rest).2) := by
        simp [runClaims, hstep]
      obtain ⟨r', h1, h2, h3, h4, h5, h6, h7⟩ := ih st1 _ hr1
      rw [hrun]
      refine ⟨r', h1, h2, h3, h4, ?_, ?_, ?_⟩
      · simp only [h5, payoutSum, List.map_cons, List.sum_cons]
        simp only [payoutSum] at h5 ⊢
        rw [Nat.add_assoc]
      · simp only [List.map_cons, List.nodup_cons]
        refine ⟨?_, h6⟩
        intro hmem
        obtain ⟨p, hp, hps⟩ := List.mem_map.mp hmem
        have := h7 p hp
        rw [hclaims1, hps] at this
        rw [claimsGet_insert_self] at this
        exact absurd this (by simp)
      · intro p hp
        rcases List.mem_cons.mp hp with rfl | hp'
        · exact hnone
        · have := h7 p hp'
          rw [hclaims1] at this
          exact claimsGet_cons_none this

/-! ### C1: conservation of claimed amounts -/

/-- C1 counterexample: a single successful claim against a round whose
`totalStake` (1) is inconsistent with the stake committed in its Merkle root
(400) drives `claimedAmount` to `320000 > totalAmount = 800`, so the
invariant `claimedAmount ≤ totalAmount` is not maintained by the code
itself. -/
theorem C1_counterexample :
    execute_claim exStBig "addrA" 400 [] =
      .ok (⟨exConfig, ⟨0, 1⟩, some ⟨1, exRoot400, 800, 1, 320000, 7⟩,
          [((1, "addrA"), "400")]⟩,
        ⟨[.snip20Transfer "addrA" 320000 "ehash" "erth",
          .wasmExecute "alloc" "ahash" 4],
         [("action", "claim"), ("address", "addrA"), ("claim_amount", "320000"),
          ("round_id", "1")]⟩) ∧
    ¬ (320000 ≤ 800) := by decide

/-- C1 amended: after any sequence of claim transactions run from a fresh
round (`claimedAmount = 0`), the final `claimedAmount` equals the sum of
`⌊totalAmount * stake_i / totalStake⌋` over the distinct successful
claimants, and it is bounded by `totalAmount` whenever the successful stakes
sum to at most `totalStake` (as they do when the Merkle tree matches
`totalStake`); without that consistency condition the bound can fail, see the
counterexample. -/
theorem C1_claims_conservation (st : ContractState) (r : AirdropRound)
    (reqs : List (String × Nat × List String))
    (hr : st.current_round = some r) (h0 : r.claimed_amount = 0) :
    (runClaims st reqs).1.current_round.map AirdropRound.total_amount =
      some r.total_amount ∧
    (runClaims st reqs).1.current_round.map AirdropRound.claimed_amount =
      some (payoutSum r.total_amount r.total_stake (runClaims st reqs).2) ∧
    ((runClaims st reqs).2.map Prod.fst).Nodup ∧
    (stakeSum (runClaims st reqs).2 ≤ r.total_stake →
      payoutSum r.total_amount r.total_stake (runClaims st reqs).2 ≤
        r.total_amount) := by
  obtain ⟨r', h1, _, h3, _, h5, h6, _⟩ := runClaims_spec reqs st r hr
  refine ⟨?_, ?_, h6, ?_⟩
  · rw [h1, Option.map_some', h3]
  · rw [h1, Option.map_some', h5, h0, Nat.zero_add]
  · intro hle
    exact payoutSum_le_of_stakeSum_le _ _ _ hle

theorem C1_claims_conservation_witness :
    (runClaims exSt800 []).1.current_round.map AirdropRound.claimed_amount =
      some 0 ∧
    payoutSum 800 400 (runClaims exSt800 []).2 ≤ 800 := by
  have h := C1_claims_conservation exSt800 ⟨1, exRoot100, 800, 400, 0, 7⟩ [] rfl rfl
  exact ⟨h.2.1, h.2.2.2 (by decide)⟩

end Airdrop

